import Mathlib

/-!
Verification of the product-importer system: a shallow embedding of the
frontend TypeScript sources (upload wizard, progress indicator, webhook
form and list, HTTP client) together with a model of the backend
ingestion-and-notification pipeline described by the specification
(CSV import worker, job lifecycle, webhook dispatch engine), and proofs
of the stated functional properties.
-/

namespace ProductImporter

/-! ## ProgressIndicator (frontend/src/components/ProgressIndicator/index.tsx) -/

/-- JavaScript `Math.round`: rounds half-up, i.e. `⌊x + 1/2⌋`. -/
def jsRound (q : ℚ) : ℤ := ⌊q + 1/2⌋

/-- `Math.max(0, Math.min(100, progress))` from the component. -/
def clampedProgress (p : ℚ) : ℚ := max 0 (min 100 p)

/-- What the ProgressIndicator renders: the bar width (a percentage used in
the inline style) and the displayed integer percentage. -/
structure ProgressView where
  barWidthPercent : ℚ
  percentShown : ℤ
  deriving DecidableEq, Repr

/-- The rendering of `ProgressIndicator` for a given `progress` prop:
bar width is the clamped value, the numeral is `Math.round` of it. -/
def renderProgress (p : ℚ) : ProgressView :=
  { barWidthPercent := clampedProgress p
    percentShown := jsRound (clampedProgress p) }

/-! ## UploadWizard file selection (frontend/src/components/UploadWizard/index.tsx) -/

/-- A browser `File` as the wizard reads it: `name` and MIME `type`. -/
structure JsFile where
  name : String
  mimeType : String
  deriving DecidableEq, Repr

/-- Observable effects of the wizard's file handlers. -/
inductive WizardEffect
  | errorToast (msg : String)
  | upload (f : JsFile)
  deriving DecidableEq, Repr

/-- JavaScript `String.prototype.endsWith`: the pattern is a suffix of
the string (expressed over the strings' character lists). -/
def jsEndsWith (s pat : String) : Bool := pat.data.isSuffixOf s.data

/-- `file.type !== 'text/csv' && !file.name.endsWith('.csv')` is the reject
condition; this is its negation (the accepted files). -/
def acceptsCsv (f : JsFile) : Bool :=
  f.mimeType == "text/csv" || jsEndsWith f.name ".csv"

/-- `handleFileSelect`: on a rejected file, one error toast and no upload;
otherwise the file is uploaded (via the auto-upload `setTimeout` call). -/
def handleFileSelect (f : Option JsFile) : List WizardEffect :=
  match f with
  | none => []
  | some f =>
    if !acceptsCsv f then [.errorToast "Please select a CSV file"]
    else [.upload f]

/-- `handleDrop`: same gate with the drop-specific toast text. -/
def handleDrop (f : Option JsFile) : List WizardEffect :=
  match f with
  | none => []
  | some f =>
    if !acceptsCsv f then [.errorToast "Please drop a CSV file"]
    else [.upload f]

/-- Number of uploads of a given file among a list of effects. -/
def uploadCount (effs : List WizardEffect) (f : JsFile) : Nat :=
  (effs.filter (fun e => e == .upload f)).length

/-! ## HTTP client upload and wizard mutation (frontend/src/api/client.ts,
UploadWizard `uploadMutation`) -/

/-- `Response.ok` for `fetch`: status in the inclusive range 200–299. -/
def fetchOk (status : Nat) : Bool := 200 ≤ status && status ≤ 299

/-- `apiClient.upload`: throws `HTTP error! status: <s>` on a non-ok
response, otherwise resolves with the parsed body (for the upload
endpoint, the body carries the job id). -/
def apiUpload (status : Nat) (body : String) : Except String String :=
  if fetchOk status then .ok body
  else .error ("HTTP error! status: " ++ toString status)

/-- A toast: message text and whether it is an error toast. -/
structure Toast where
  message : String
  isError : Bool
  deriving DecidableEq, Repr

/-- The wizard state the upload mutation touches. -/
structure WizardState where
  jobId : Option String
  toasts : List Toast
  deriving DecidableEq, Repr

/-- `handleFileSelect` clears the previous job id (`setJobId(null)`)
before the mutation fires. -/
def startUpload (st : WizardState) : WizardState := { st with jobId := none }

/-- The mutation's `onSuccess`/`onError` handlers: success stores the
returned job id for polling and shows a success toast; an error shows an
error toast naming the failure and leaves the job id untouched. -/
def settleUpload (st : WizardState) (r : Except String String) : WizardState :=
  match r with
  | .ok id => { st with jobId := some id, toasts := [⟨"Upload started!", false⟩] }
  | .error e => { st with toasts := [⟨"Upload failed: " ++ e, true⟩] }

/-- The whole request path for one chosen file: clear the job id, call
`apiClient.upload`, settle the mutation with its outcome. -/
def uploadFlow (st : WizardState) (status : Nat) (body : String) : WizardState :=
  settleUpload (startUpload st) (apiUpload status body)

/-! ## Webhook form (WebhookForm in the dashboard components) -/

/-- `const EVENT_TYPES = ['product.created', 'product.updated', 'product.deleted']`. -/
def EVENT_TYPES : List String :=
  ["product.created", "product.updated", "product.deleted"]

/-- The form's controlled state. -/
structure WebhookFormData where
  url : String
  event : String
  enabled : Bool
  secret : String
  deriving DecidableEq, Repr

/-- Initial `useState` value of the form. -/
def initialFormData : WebhookFormData :=
  { url := "", event := "product.created", enabled := true, secret := "" }

/-- An existing webhook handed to the edit form. -/
structure WebhookInput where
  url : String
  event : String
  enabled : Bool
  secret : String
  deriving DecidableEq, Repr

/-- The `useEffect` that seeds the form from an existing webhook:
`event: webhook.event || 'product.created'` (empty string is falsy). -/
def formDataFromWebhook (w : WebhookInput) : WebhookFormData :=
  { url := w.url
    event := if w.event = "" then "product.created" else w.event
    enabled := w.enabled
    secret := w.secret }

/-- User interactions with the form fields. The event `<select>` renders
exactly the `EVENT_TYPES` options, so a change event can only carry one of
them: a pick is by option index, out-of-range picks leave the value. -/
inductive FormAction
  | setUrl (s : String)
  | pickEvent (i : Nat)
  | setEnabled (b : Bool)
  | setSecret (s : String)

/-- Applying one interaction to the controlled form state. -/
def applyAction (fd : WebhookFormData) : FormAction → WebhookFormData
  | .setUrl s => { fd with url := s }
  | .pickEvent i => { fd with event := (EVENT_TYPES.get? i).getD fd.event }
  | .setEnabled b => { fd with enabled := b }
  | .setSecret s => { fd with secret := s }

/-- The `event` field of the payload `handleSubmit` sends. -/
def submittedEvent (fd : WebhookFormData) : String := fd.event

/-! ## Webhook list rendering and last-delivery recording -/

/-- The webhook entity as the list component consumes it: the last test's
HTTP status code and latency are numeric fields. -/
structure Webhook where
  id : Nat
  url : String
  event : String
  enabled : Bool
  last_test_status : Option Nat
  last_test_response_ms : Option Nat
  deriving DecidableEq, Repr

/-- Modelled from the spec: `record_last_delivery(subscription_id,
status_code, latency_ms)` — the dispatch engine writes the attempt's HTTP
status code and latency in milliseconds back onto the subscription's
last-test fields. The backend service implementing it is not part of the
frontend sources. -/
def record_last_delivery (w : Webhook) (statusCode latencyMs : Nat) : Webhook :=
  { w with last_test_status := some statusCode,
           last_test_response_ms := some latencyMs }

/-- The rendered last-test line: the CSS class is `success` exactly when
`webhook.last_test_status === 200`, and the text shows the status followed
by the latency with an `ms` suffix. -/
structure LastTestView where
  isSuccessClass : Bool
  text : String
  deriving DecidableEq, Repr

/-- React renders `null` as nothing inside `{...}`. -/
def latencyText (ms : Option Nat) : String :=
  match ms with
  | some m => toString m
  | none => ""

/-- `WebhookList`'s last-test block: rendered only when
`webhook.last_test_status` is truthy (present and nonzero). -/
def renderLastTest (w : Webhook) : Option LastTestView :=
  match w.last_test_status with
  | none => none
  | some s =>
    if s = 0 then none
    else some { isSuccessClass := s == 200
                text := toString s ++ " (" ++ latencyText w.last_test_response_ms ++ "ms)" }

/-! ## Webhook dispatch engine (delivery attempts with retry)

Modelled from the spec: the backend dispatch engine is not among the
frontend sources. A delivery attempt's response is an HTTP status code or
`none` for a network/timeout error; 2xx is success, 5xx or a network
error is a retryable failure, anything else a permanent failure;
retryable failures are re-enqueued with exponential backoff (base delay
doubling per attempt) up to a fixed attempt ceiling. -/

/-- Outcome classification of one delivery attempt. -/
inductive Outcome
  | success
  | retryableFailure
  | permanentFailure
  deriving DecidableEq, Repr

/-- Modelled from the spec: classify one HTTP response (`none` stands for
a network or timeout error): 2xx is `success`, 5xx or network error is
`retryableFailure`, any other response is `permanentFailure`. -/
def classify (resp : Option Nat) : Outcome :=
  match resp with
  | none => .retryableFailure
  | some c =>
    if 200 ≤ c ∧ c ≤ 299 then .success
    else if 500 ≤ c ∧ c ≤ 599 then .retryableFailure
    else .permanentFailure

/-- Base delay of the exponential backoff, in milliseconds. -/
def baseBackoffMs : Nat := 1000

/-- The recorded outcome of a whole delivery: whether it succeeded, how
many attempts were made, the last observed response, and the backoff
delays that were scheduled between attempts. -/
structure DeliveryRecord where
  delivered : Bool
  attempts : Nat
  lastResponse : Option Nat
  backoffsMs : List Nat
  deriving DecidableEq, Repr

/-- Modelled from the spec: the retry loop of the dispatch engine.
`respond i` is the response observed on the attempt with index `i`;
`fuel` is the number of attempts still allowed. A success or permanent
failure ends the delivery at once; a retryable failure is re-enqueued
with backoff `baseBackoffMs * 2 ^ i` while attempts remain. -/
def dispatchLoop (respond : Nat → Option Nat) : Nat → Nat → DeliveryRecord
  | i, 0 => { delivered := false, attempts := i, lastResponse := none, backoffsMs := [] }
  | i, fuel + 1 =>
    let r := respond i
    match classify r with
    | .success => { delivered := true, attempts := i + 1, lastResponse := r, backoffsMs := [] }
    | .permanentFailure => { delivered := false, attempts := i + 1, lastResponse := r, backoffsMs := [] }
    | .retryableFailure =>
      if fuel = 0 then
        { delivered := false, attempts := i + 1, lastResponse := r, backoffsMs := [] }
      else
        let rest := dispatchLoop respond (i + 1) fuel
        { rest with backoffsMs := baseBackoffMs * 2 ^ i :: rest.backoffsMs }

/-- Modelled from the spec: deliver with at most `ceiling` attempts. -/
def deliverWithRetry (respond : Nat → Option Nat) (ceiling : Nat) : DeliveryRecord :=
  dispatchLoop respond 0 ceiling

/-! ## CSV import worker and job lifecycle

Modelled from the spec: the Celery worker, job store and progress
publisher are not among the frontend sources. The worker streams the
staged file in fixed-size chunks, validates each row (non-empty `sku`
and `name`), upserts valid rows by `sku` in file order, persists a
progress snapshot at every chunk boundary, and finalizes the job. -/

/-- The four job lifecycle states. -/
inductive Status
  | pending
  | running
  | completed
  | failed
  deriving DecidableEq, Repr

/-- The legal strict transitions of the job state machine. -/
def statusTrans (a b : Status) : Bool :=
  match a, b with
  | .pending, .running => true
  | .running, .completed => true
  | .running, .failed => true
  | _, _ => false

/-- One observation step: a poller either sees the same status again or a
legal transition. -/
def stepOk (a b : Status) : Prop := a = b ∨ statusTrans a b = true

/-- The job snapshot surfaced to pollers, with exactly the fields of the
progress payload shape: `id`, `status`, `progress` (a rational in
`[0, 1]`), `message`, `total_rows`, `processed_rows`, `error_message`,
`started_at`, `finished_at` (timestamps as abstract ticks). -/
structure Snapshot where
  id : String
  status : Status
  progress : ℚ
  message : Option String
  total_rows : Option Nat
  processed_rows : Nat
  error_message : Option String
  started_at : Option Nat
  finished_at : Option Nat
  deriving DecidableEq, Repr

/-- A parsed CSV data row projected onto the resolved header columns. -/
structure Row where
  sku : String
  name : String
  description : String
  deriving DecidableEq, Repr

/-- A product record in the catalog collaborator. -/
structure ProductRecord where
  name : String
  description : String
  active : Bool
  deriving DecidableEq, Repr

/-- The catalog, keyed by the natural key `sku`. -/
def Catalog : Type := String → Option ProductRecord

/-- The staged CSV: a header row and the data rows, each a list of cells. -/
structure CsvFile where
  header : List String
  rows : List (List String)
  deriving DecidableEq, Repr

/-- Position of a named column in the header. -/
def column (header : List String) (name : String) : Option Nat :=
  header.findIdx? (· == name)

/-- Cell of a row at an optional column index; a missing column or a
short row reads as the empty string. -/
def cellAt (row : List String) : Option Nat → String
  | none => ""
  | some i => (row.get? i).getD ""

/-- Project one raw row onto the resolved `sku`/`name`/`description`
columns. -/
def parseRow (header : List String) (row : List String) : Row :=
  { sku := cellAt row (column header "sku")
    name := cellAt row (column header "name")
    description := cellAt row (column header "description") }

/-- All data rows of the file, parsed against its header. -/
def parsedRows (f : CsvFile) : List Row := f.rows.map (parseRow f.header)

/-- Row validation: non-empty `sku` and non-empty `name`. -/
def isValidRow (r : Row) : Bool := r.sku != "" && r.name != ""

/-- The required columns `sku` and `name` are present in the header. -/
def hasRequiredHeader (f : CsvFile) : Bool :=
  f.header.contains "sku" && f.header.contains "name"

/-- Upsert one row by `sku`: overwrite `name`/`description` of an
existing record (leaving `active` untouched), or create a new record
with `active = true`. -/
def upsertRow (cat : Catalog) (r : Row) : Catalog :=
  fun s =>
    if s = r.sku then
      match cat r.sku with
      | some p => some { name := r.name, description := r.description, active := p.active }
      | none => some { name := r.name, description := r.description, active := true }
    else cat s

/-- Apply one parsed row: valid rows are upserted, invalid rows are
skipped (counted separately, never fatal). -/
def applyRow (cat : Catalog) (r : Row) : Catalog :=
  if isValidRow r then upsertRow cat r else cat

/-- Apply a list of rows in file order. -/
def importRows (cat : Catalog) (rows : List Row) : Catalog :=
  rows.foldl applyRow cat

/-- The chunk size used for streaming (a tunable constant). -/
def chunkSize : Nat := 1000

/-- Split a list into nonempty chunks of at most `n + 1` elements; the
`fuel` argument makes the recursion structural (it never runs out when
started at the list's length). -/
def chunksOfFuel (n : Nat) : Nat → List Row → List (List Row)
  | _, [] => []
  | 0, l => [l]
  | fuel + 1, x :: xs => (x :: xs.take n) :: chunksOfFuel n fuel (xs.drop n)

/-- Split the parsed rows into the worker's processing chunks. -/
def chunksOf (n : Nat) (l : List Row) : List (List Row) :=
  chunksOfFuel n l.length l

/-- Progress ratio reported at a chunk boundary: rows read over total
rows (division by a zero total yields 0 in `ℚ`). -/
def prog (seen total : Nat) : ℚ := (seen : ℚ) / (total : ℚ)

/-- Snapshot of a job just created by intake. -/
def pendingSnap (id : String) : Snapshot :=
  { id := id, status := .pending, progress := 0, message := some "queued"
    total_rows := none, processed_rows := 0, error_message := none
    started_at := none, finished_at := none }

/-- Snapshot persisted when the worker claims the job, before header
resolution. -/
def runningStart (id : String) : Snapshot :=
  { id := id, status := .running, progress := 0, message := some "starting import"
    total_rows := none, processed_rows := 0, error_message := none
    started_at := some 0, finished_at := none }

/-- Snapshot persisted at an interior chunk boundary. -/
def runningSnap (id : String) (total seen processed : Nat) : Snapshot :=
  { id := id, status := .running, progress := prog seen total
    message := some "importing", total_rows := some total
    processed_rows := processed, error_message := none
    started_at := some 0, finished_at := none }

/-- Terminal snapshot of a successful import. -/
def completedSnap (id : String) (total processed : Nat) : Snapshot :=
  { id := id, status := .completed, progress := 1, message := some "done"
    total_rows := some total, processed_rows := processed, error_message := none
    started_at := some 0, finished_at := some 1 }

/-- Terminal snapshot of an import aborted by a missing required header
column: no partial progress is claimed. -/
def failedSnap (id : String) : Snapshot :=
  { id := id, status := .failed, progress := 0, message := some "failed"
    total_rows := none, processed_rows := 0
    error_message := some "missing required columns: sku, name"
    started_at := some 0, finished_at := some 1 }

/-- Count of syntactically valid rows in a chunk. -/
def countValid (rows : List Row) : Nat := (rows.filter isValidRow).length

/-- Worker state threaded through the chunk loop: the snapshots persisted
at interior chunk boundaries, the running count of processed (valid)
rows, and the catalog. -/
structure ChunkState where
  snaps : List Snapshot
  processed : Nat
  catalog : Catalog

/-- Process the chunks sequentially. After each chunk that is not the
last one, a progress snapshot is persisted (the final chunk's update is
merged with the completion update, per the completion contract). -/
def processChunks (id : String) (total : Nat) :
    List (List Row) → Nat → Nat → Catalog → ChunkState
  | [], _, processed, cat => { snaps := [], processed := processed, catalog := cat }
  | ch :: rest, seen, processed, cat =>
    let seen2 := seen + ch.length
    let processed2 := processed + countValid ch
    let st := processChunks id total rest seen2 processed2 (importRows cat ch)
    { st with
        snaps :=
          (match rest with
           | [] => []
           | _ :: _ => [runningSnap id total seen2 processed2]) ++ st.snaps }

/-- Result of running an import job: the sequence of snapshots a poller
can observe (in persistence order), the terminal snapshot, and the final
catalog. -/
structure ImportResult where
  trace : List Snapshot
  finalJob : Snapshot
  catalog : Catalog

/-- Modelled from the spec: the CSV import worker. Intake creates the job
`pending`; the worker claims it (`running`), resolves the header —
missing required columns fail the job with no partial progress — then
streams the chunks, persisting progress at chunk boundaries, and
finalizes to `completed` with `progress = 1`.
The worker state at the end of the chunk loop for a given file: -/
def importRun (id : String) (f : CsvFile) (cat : Catalog) : ChunkState :=
  processChunks id (parsedRows f).length (chunksOf (chunkSize - 1) (parsedRows f)) 0 0 cat

/-- Modelled from the spec: the full run of an import job, as a trace of
persisted snapshots plus the terminal job state and the final catalog. -/
def runImport (id : String) (f : CsvFile) (cat : Catalog) : ImportResult :=
  if hasRequiredHeader f then
    { trace := pendingSnap id :: runningStart id ::
        ((importRun id f cat).snaps
          ++ [completedSnap id (parsedRows f).length (importRun id f cat).processed])
      finalJob := completedSnap id (parsedRows f).length (importRun id f cat).processed
      catalog := (importRun id f cat).catalog }
  else
    { trace := [pendingSnap id, runningStart id, failedSnap id]
      finalJob := failedSnap id
      catalog := cat }

/-- The file-order-last syntactically valid row carrying a given `sku`. -/
def lastValidWithSku (rows : List Row) (s : String) : Option Row :=
  rows.reverse.find? (fun r => isValidRow r && r.sku == s)

/-- The mutable fields a CSV row determines on a catalog record (`active`
depends on the record's history, `name`/`description` only on the row). -/
def viewND : Option ProductRecord → Option (String × String) :=
  Option.map (fun p => (p.name, p.description))

/-! ## Progress polling (frontend/src/hooks/useUploadProgress.ts) -/

/-- The hook's `refetchInterval` callback: polling stops (returns
`false`, here `none`) once the fetched job is `completed` or `failed`,
and otherwise polls every 2000 ms. -/
def refetchIntervalMs (st : Option Status) : Option Nat :=
  match st with
  | some .completed => none
  | some .failed => none
  | _ => some 2000

/-! ## Relations over snapshots used by the invariants -/

/-- Between two consecutive persisted snapshots: progress and processed
row count never decrease and the status takes at most one legal step. -/
def Rsnap (a b : Snapshot) : Prop :=
  a.progress ≤ b.progress ∧ a.processed_rows ≤ b.processed_rows ∧ stepOk a.status b.status

/-- Monotonicity of the numeric fields between two snapshots. -/
def progressMono (a b : Snapshot) : Prop :=
  a.progress ≤ b.progress ∧ a.processed_rows ≤ b.processed_rows

instance : IsTrans Snapshot progressMono :=
  ⟨fun _ _ _ hab hbc => ⟨le_trans hab.1 hbc.1, le_trans hab.2 hbc.2⟩⟩

/-! ## Concrete demonstration inputs (the spec's 3-row scenario) -/

/-- The spec's scenario file: header `sku,name,description` and rows
`[A1,Widget,desc]`, `[A1,Widget v2,desc2]`, `[,NoSku,desc3]`. -/
def demoFile : CsvFile :=
  { header := ["sku", "name", "description"]
    rows := [["A1", "Widget", "desc"], ["A1", "Widget v2", "desc2"], ["", "NoSku", "desc3"]] }

/-- An empty catalog. -/
def demoCatalog : Catalog := fun _ => none

/-! ## C9: ProgressIndicator clamps and rounds -/

/-- C9: for every real-valued progress input, the ProgressIndicator
renders a bar width equal to `max(0, min(100, progress))` and a displayed
percentage equal to that value rounded (JavaScript `Math.round`); the
rendered values always lie in `[0, 100]`, and whenever the input is
already in that range the bar width equals the input and the percentage
equals the rounded input. -/
theorem C9_progress_indicator_clamps (p : ℚ) :
    (renderProgress p).barWidthPercent = max 0 (min 100 p) ∧
    (renderProgress p).percentShown = jsRound (max 0 (min 100 p)) ∧
    0 ≤ (renderProgress p).barWidthPercent ∧ (renderProgress p).barWidthPercent ≤ 100 ∧
    0 ≤ (renderProgress p).percentShown ∧ (renderProgress p).percentShown ≤ 100 ∧
    (0 ≤ p → p ≤ 100 →
      (renderProgress p).barWidthPercent = p ∧
      (renderProgress p).percentShown = jsRound p) := by
  have hlo : (0 : ℚ) ≤ clampedProgress p := le_max_left 0 _
  have hhi : clampedProgress p ≤ 100 := by
    apply max_le (by norm_num)
    exact min_le_left _ _
  refine ⟨rfl, rfl, hlo, hhi, ?_, ?_, ?_⟩
  · show (0 : ℤ) ≤ jsRound (clampedProgress p)
    unfold jsRound
    rw [Int.le_floor]
    push_cast
    linarith
  · show jsRound (clampedProgress p) ≤ 100
    unfold jsRound
    rw [Int.floor_le_iff]
    push_cast
    linarith
  · intro h0 h100
    have hcl : clampedProgress p = p := by
      unfold clampedProgress
      rw [min_eq_right h100, max_eq_right h0]
    constructor
    · show clampedProgress p = p
      exact hcl
    · show jsRound (clampedProgress p) = jsRound p
      rw [hcl]

/-- Witness for C9 at the in-range input 50: the bar shows 50% and the
percentage is the rounded value 50. -/
theorem C9_witness :
    (0 : ℚ) ≤ 50 ∧ (50 : ℚ) ≤ 100 ∧
    (renderProgress 50).barWidthPercent = 50 ∧
    (renderProgress 50).percentShown = 50 := by
  have h := C9_progress_indicator_clamps 50
  have hin := h.2.2.2.2.2.2 (by norm_num) (by norm_num)
  refine ⟨by norm_num, by norm_num, hin.1, ?_⟩
  rw [hin.2]
  unfold jsRound
  norm_num

/-! ## C10: UploadWizard accepts only CSV files -/

/-- C10: a chosen or dropped file whose MIME type is not `text/csv` and
whose name does not end in `.csv` produces exactly an error toast and is
never uploaded; every other chosen or dropped file triggers exactly one
upload of that file. -/
theorem C10_csv_gate (f : JsFile) :
    ((f.mimeType = "text/csv" ∨ jsEndsWith f.name ".csv" = true) →
      handleFileSelect (some f) = [.upload f] ∧
      handleDrop (some f) = [.upload f] ∧
      uploadCount (handleFileSelect (some f)) f = 1 ∧
      uploadCount (handleDrop (some f)) f = 1) ∧
    (f.mimeType ≠ "text/csv" → jsEndsWith f.name ".csv" = false →
      handleFileSelect (some f) = [.errorToast "Please select a CSV file"] ∧
      handleDrop (some f) = [.errorToast "Please drop a CSV file"] ∧
      uploadCount (handleFileSelect (some f)) f = 0 ∧
      uploadCount (handleDrop (some f)) f = 0) := by
  constructor
  · intro h
    have hacc : acceptsCsv f = true := by
      unfold acceptsCsv
      rcases h with h | h
      · simp [h]
      · simp [h]
    simp [handleFileSelect, handleDrop, hacc, uploadCount]
  · intro h1 h2
    have hacc : acceptsCsv f = false := by
      unfold acceptsCsv
      simp [h1, h2]
    simp [handleFileSelect, handleDrop, hacc, uploadCount]

/-- Witness for C10: `data.csv` (even with a non-CSV MIME type) is
uploaded exactly once; `notes.txt` with MIME `text/plain` only raises the
error toasts. -/
theorem C10_witness :
    (handleFileSelect (some ⟨"data.csv", "text/plain"⟩) = [.upload ⟨"data.csv", "text/plain"⟩] ∧
      uploadCount (handleFileSelect (some ⟨"data.csv", "text/plain"⟩)) ⟨"data.csv", "text/plain"⟩ = 1) ∧
    (handleFileSelect (some ⟨"notes.txt", "text/plain"⟩) = [.errorToast "Please select a CSV file"] ∧
      handleDrop (some ⟨"notes.txt", "text/plain"⟩) = [.errorToast "Please drop a CSV file"]) := by
  have hgood := (C10_csv_gate ⟨"data.csv", "text/plain"⟩).1 (Or.inr (by decide))
  have hbad := (C10_csv_gate ⟨"notes.txt", "text/plain"⟩).2 (by decide) (by decide)
  exact ⟨⟨hgood.1, hgood.2.2.1⟩, hbad.1, hbad.2.1⟩

/-! ## C6: upload errors surface synchronously, successes store the job id -/

/-- C6: a non-2xx answer to the upload request makes `apiClient.upload`
reject with an error naming the status; the wizard then shows the failure
toast and holds no job id. A 2xx answer resolves with the response body
and the returned job id is stored for polling, with a success toast. -/
theorem C6_upload_errors_surface (st : WizardState) (status : Nat) (body : String) :
    (¬(200 ≤ status ∧ status ≤ 299) →
      apiUpload status body = .error ("HTTP error! status: " ++ toString status) ∧
      (uploadFlow st status body).jobId = none ∧
      (uploadFlow st status body).toasts =
        [⟨"Upload failed: " ++ ("HTTP error! status: " ++ toString status), true⟩]) ∧
    ((200 ≤ status ∧ status ≤ 299) →
      apiUpload status body = .ok body ∧
      (uploadFlow st status body).jobId = some body ∧
      (uploadFlow st status body).toasts = [⟨"Upload started!", false⟩]) := by
  constructor
  · intro h
    have hok : fetchOk status = false := by
      simp only [fetchOk, Bool.and_eq_false_iff, decide_eq_false_iff_not]
      omega
    unfold uploadFlow apiUpload settleUpload startUpload
    simp [hok]
  · intro h
    have hok : fetchOk status = true := by
      simp only [fetchOk, Bool.and_eq_true, decide_eq_true_eq]
      omega
    unfold uploadFlow apiUpload settleUpload startUpload
    simp [hok]

/-- Witness for C6: a 500 answer rejects with `HTTP error! status: 500`
and leaves no job id; a 200 answer stores the returned job id. -/
theorem C6_witness :
    (apiUpload 500 "job-9" = .error "HTTP error! status: 500" ∧
      (uploadFlow ⟨some "old", []⟩ 500 "job-9").jobId = none) ∧
    (apiUpload 200 "job-9" = .ok "job-9" ∧
      (uploadFlow ⟨some "old", []⟩ 200 "job-9").jobId = some "job-9") := by
  have hbad := (C6_upload_errors_surface ⟨some "old", []⟩ 500 "job-9").1 (by omega)
  have hgood := (C6_upload_errors_surface ⟨some "old", []⟩ 200 "job-9").2 (by omega)
  exact ⟨⟨hbad.1, hbad.2.1⟩, hgood.1, hgood.2.1⟩

/-! ## C7: the webhook form only produces the three event types -/

/-- Any sequence of form interactions keeps the event inside
`EVENT_TYPES` when it starts there. -/
theorem applyActions_event_mem (acts : List FormAction) :
    ∀ fd : WebhookFormData, fd.event ∈ EVENT_TYPES →
      (acts.foldl applyAction fd).event ∈ EVENT_TYPES := by
  induction acts with
  | nil => intro fd h; exact h
  | cons a rest ih =>
    intro fd h
    apply ih
    cases a with
    | setUrl s => exact h
    | setEnabled b => exact h
    | setSecret s => exact h
    | pickEvent i =>
      show ((EVENT_TYPES.get? i).getD fd.event) ∈ EVENT_TYPES
      cases hg : EVENT_TYPES.get? i with
      | none => simpa using h
      | some e =>
        simp only [Option.getD_some]
        exact List.get?_mem hg

/-- C7: the form's event selector offers exactly
`{product.created, product.updated, product.deleted}`, the fresh form
starts at `product.created`, and every webhook created or edited through
the form (seeded from a webhook whose event is in the set) submits an
event drawn from that three-element set. -/
theorem C7_event_closed_set :
    EVENT_TYPES = ["product.created", "product.updated", "product.deleted"] ∧
    initialFormData.event = "product.created" ∧
    (∀ acts : List FormAction,
      submittedEvent (acts.foldl applyAction initialFormData) ∈ EVENT_TYPES) ∧
    (∀ w : WebhookInput, w.event ∈ EVENT_TYPES →
      ∀ acts : List FormAction,
        submittedEvent (acts.foldl applyAction (formDataFromWebhook w)) ∈ EVENT_TYPES) := by
  refine ⟨rfl, rfl, ?_, ?_⟩
  · intro acts
    exact applyActions_event_mem acts initialFormData (by decide)
  · intro w hw acts
    apply applyActions_event_mem
    show (if w.event = "" then "product.created" else w.event) ∈ EVENT_TYPES
    split
    · decide
    · exact hw

/-- Witness for C7: editing a `product.updated` webhook and picking the
third option submits an event that is still in the closed set. -/
theorem C7_witness :
    ("product.updated" : String) ∈ EVENT_TYPES ∧
    submittedEvent
      ([FormAction.pickEvent 2].foldl applyAction
        (formDataFromWebhook ⟨"https://example.com/hook", "product.updated", true, ""⟩))
      ∈ EVENT_TYPES := by
  refine ⟨by decide, ?_⟩
  exact C7_event_closed_set.2.2.2 ⟨"https://example.com/hook", "product.updated", true, ""⟩
    (by decide) [FormAction.pickEvent 2]

/-! ## C8: last-test fields carry the numeric status code and latency -/

/-- C8: after the dispatch engine records a delivery attempt's HTTP
status code and latency onto the subscription, the list view renders the
last-test line from those numeric fields: the `success` class exactly
when the status equals the number 200, and the latency with an `ms`
suffix. -/
theorem C8_last_test_fields (w : Webhook) (code latency : Nat) (h : code ≠ 0) :
    renderLastTest (record_last_delivery w code latency) =
      some { isSuccessClass := code == 200
             text := toString code ++ " (" ++ toString latency ++ "ms)" } := by
  unfold renderLastTest record_last_delivery latencyText
  simp [h]

/-- Witness for C8: a 200-status, 123 ms test renders as a success badge
reading `200 (123ms)`. -/
theorem C8_witness :
    (200 : Nat) ≠ 0 ∧
    renderLastTest (record_last_delivery ⟨7, "https://example.com", "product.created", true, none, none⟩ 200 123) =
      some { isSuccessClass := true, text := "200 (123ms)" } := by
  refine ⟨by decide, ?_⟩
  have h := C8_last_test_fields ⟨7, "https://example.com", "product.created", true, none, none⟩ 200 123 (by decide)
  simpa using h

/-! ## C5: webhook retry policy -/

/-- When every attempt answers HTTP 500, the loop retries with doubling
backoff until the remaining-attempt fuel is exhausted. -/
theorem dispatchLoop_all_500 (respond : Nat → Option Nat)
    (hall : ∀ j, respond j = some 500) :
    ∀ fuel i, 0 < fuel →
      dispatchLoop respond i fuel =
        { delivered := false, attempts := i + fuel, lastResponse := some 500
          backoffsMs := (List.range (fuel - 1)).map (fun k => baseBackoffMs * 2 ^ (i + k)) } := by
  intro fuel
  induction fuel with
  | zero => intro i h; omega
  | succ m ih =>
    intro i _
    show dispatchLoop respond i (m + 1) = _
    unfold dispatchLoop
    rw [hall i]
    have hcl : classify (some 500) = .retryableFailure := by decide
    simp only [hcl]
    cases m with
    | zero => simp
    | succ m' =>
      rw [if_neg (Nat.succ_ne_zero m')]
      rw [ih (i + 1) (Nat.succ_pos m')]
      dsimp only
      simp only [Nat.add_sub_cancel]
      rw [List.range_succ_eq_map, List.map_cons, List.map_map]
      simp only [add_zero, DeliveryRecord.mk.injEq]
      refine ⟨trivial, by omega, trivial, ?_⟩
      congr 1
      apply List.map_congr_left
      intro k _
      show baseBackoffMs * 2 ^ (i + 1 + k) = baseBackoffMs * 2 ^ (i + (k + 1))
      have hik : i + 1 + k = i + (k + 1) := by omega
      rw [hik]

/-- C5: a delivery answered HTTP 500 on every attempt is re-enqueued with
doubling backoff up to the configured attempt ceiling and finally
recorded as a failed delivery carrying the last observed status code 500;
a delivery answered HTTP 200 on the first attempt is recorded as a
success after exactly one attempt — zero retries and no backoff. -/
theorem C5_retry_policy (respond : Nat → Option Nat) (ceiling : Nat) :
    (0 < ceiling → (∀ j, respond j = some 500) →
      deliverWithRetry respond ceiling =
        { delivered := false, attempts := ceiling, lastResponse := some 500
          backoffsMs := (List.range (ceiling - 1)).map (fun k => baseBackoffMs * 2 ^ k) }) ∧
    (0 < ceiling → respond 0 = some 200 →
      deliverWithRetry respond ceiling =
        { delivered := true, attempts := 1, lastResponse := some 200, backoffsMs := [] }) := by
  constructor
  · intro hpos hall
    unfold deliverWithRetry
    rw [dispatchLoop_all_500 respond hall ceiling 0 hpos]
    simp
  · intro hpos h200
    obtain ⟨m, rfl⟩ : ∃ m, ceiling = m + 1 := ⟨ceiling - 1, by omega⟩
    unfold deliverWithRetry dispatchLoop
    rw [h200]
    have hcl : classify (some 200) = .success := by decide
    simp only [hcl]

/-- Witness for C5 with a ceiling of 3 attempts: the always-500 endpoint
yields a failed record after 3 attempts with backoffs 1000 ms and
2000 ms; the immediately-200 endpoint yields a success after one
attempt. -/
theorem C5_witness :
    (0 : Nat) < 3 ∧
    deliverWithRetry (fun _ => some 500) 3 =
      { delivered := false, attempts := 3, lastResponse := some 500
        backoffsMs := [1000, 2000] } ∧
    deliverWithRetry (fun _ => some 200) 3 =
      { delivered := true, attempts := 1, lastResponse := some 200, backoffsMs := [] } := by
  refine ⟨by decide, ?_, ?_⟩
  · have h := (C5_retry_policy (fun _ => some 500) 3).1 (by decide) (fun _ => rfl)
    rw [h]
    decide
  · exact (C5_retry_policy (fun _ => some 200) 3).2 (by decide) rfl

/-! ## Arithmetic facts about the progress ratio -/

theorem prog_nonneg (s t : Nat) : 0 ≤ prog s t := by
  unfold prog
  positivity

theorem prog_zero (t : Nat) : prog 0 t = 0 := by
  unfold prog
  simp

theorem prog_le_one {s t : Nat} (h : s ≤ t) : prog s t ≤ 1 := by
  unfold prog
  rcases Nat.eq_zero_or_pos t with ht | ht
  · subst ht
    simp
  · rw [div_le_one (by exact_mod_cast ht)]
    exact_mod_cast h

theorem prog_lt_one {s t : Nat} (h : s < t) : prog s t < 1 := by
  unfold prog
  have ht : 0 < t := by omega
  rw [div_lt_one (by exact_mod_cast ht)]
  exact_mod_cast h

theorem prog_mono {s s' : Nat} (t : Nat) (h : s ≤ s') : prog s t ≤ prog s' t := by
  unfold prog
  rcases Nat.eq_zero_or_pos t with ht | ht
  · subst ht
    simp
  · rw [div_le_div_iff_of_pos_right (by exact_mod_cast ht)]
    exact_mod_cast h

/-! ## The chunking preserves the row stream -/

theorem chunksOfFuel_flatten (n : Nat) :
    ∀ (fuel : Nat) (l : List Row), l.length ≤ fuel →
      (chunksOfFuel n fuel l).flatten = l := by
  intro fuel
  induction fuel with
  | zero =>
    intro l h
    have hl : l = [] := List.eq_nil_of_length_eq_zero (Nat.le_zero.mp h)
    subst hl
    rfl
  | succ m ih =>
    intro l h
    cases l with
    | nil => rfl
    | cons x xs =>
      show ((x :: xs.take n) :: chunksOfFuel n m (xs.drop n)).flatten = x :: xs
      rw [List.flatten_cons]
      rw [ih (xs.drop n) (by simp only [List.length_drop]; simp at h; omega)]
      simp [List.take_append_drop]

theorem chunksOfFuel_ne_nil (n : Nat) :
    ∀ (fuel : Nat) (l : List Row), l.length ≤ fuel →
      ∀ c ∈ chunksOfFuel n fuel l, c ≠ [] := by
  intro fuel
  induction fuel with
  | zero =>
    intro l h
    have hl : l = [] := List.eq_nil_of_length_eq_zero (Nat.le_zero.mp h)
    subst hl
    intro c hc
    simp [chunksOfFuel] at hc
  | succ m ih =>
    intro l h
    cases l with
    | nil => intro c hc; simp [chunksOfFuel] at hc
    | cons x xs =>
      intro c hc
      rcases List.mem_cons.mp hc with hc | hc
      · subst hc
        simp
      · exact ih (xs.drop n) (by simp only [List.length_drop]; simp at h; omega) c hc

theorem chunksOf_flatten (n : Nat) (l : List Row) : (chunksOf n l).flatten = l :=
  chunksOfFuel_flatten n l.length l le_rfl

theorem chunksOf_ne_nil (n : Nat) (l : List Row) : ∀ c ∈ chunksOf n l, c ≠ [] :=
  chunksOfFuel_ne_nil n l.length l le_rfl

/-! ## The chunk loop equals a flat fold over the rows -/

theorem countValid_append (a b : List Row) :
    countValid (a ++ b) = countValid a + countValid b := by
  simp [countValid, List.filter_append]

theorem processChunks_catalog (id : String) (total : Nat) :
    ∀ (chunks : List (List Row)) (seen proc : Nat) (cat : Catalog),
      (processChunks id total chunks seen proc cat).catalog =
        importRows cat chunks.flatten := by
  intro chunks
  induction chunks with
  | nil => intro seen proc cat; rfl
  | cons ch rest ih =>
    intro seen proc cat
    show (processChunks id total (ch :: rest) seen proc cat).catalog = _
    dsimp only [processChunks]
    rw [ih]
    rw [List.flatten_cons]
    unfold importRows
    rw [List.foldl_append]

theorem processChunks_processed (id : String) (total : Nat) :
    ∀ (chunks : List (List Row)) (seen proc : Nat) (cat : Catalog),
      (processChunks id total chunks seen proc cat).processed =
        proc + countValid chunks.flatten := by
  intro chunks
  induction chunks with
  | nil => intro seen proc cat; simp [processChunks, countValid]
  | cons ch rest ih =>
    intro seen proc cat
    dsimp only [processChunks]
    rw [ih]
    rw [List.flatten_cons, countValid_append]
    omega

/-! ## Last-valid-occurrence semantics of the fold -/

theorem importRows_lookup :
    ∀ (rows : List Row) (cat : Catalog) (s : String),
      viewND (importRows cat rows s) =
        match lastValidWithSku rows s with
        | some r => some (r.name, r.description)
        | none => viewND (cat s) := by
  intro rows
  induction rows with
  | nil => intro cat s; rfl
  | cons r rest ih =>
    intro cat s
    show viewND (importRows (applyRow cat r) rest s) = _
    rw [ih (applyRow cat r) s]
    have hsplit : lastValidWithSku (r :: rest) s =
        (lastValidWithSku rest s).or
          (if (isValidRow r && r.sku == s) = true then some r else none) := by
      unfold lastValidWithSku
      rw [List.reverse_cons, List.find?_append]
      congr 1
      cases hpr : (isValidRow r && r.sku == s) <;> simp [List.find?, hpr]
    rw [hsplit]
    cases hl : lastValidWithSku rest s with
    | some x => rfl
    | none =>
      rw [Option.none_or]
      by_cases hv : isValidRow r = true
      · by_cases hs : s = r.sku
        · have hb : (isValidRow r && r.sku == s) = true := by
            rw [hv, hs]
            simp
          rw [if_pos hb]
          show viewND (applyRow cat r s) = some (r.name, r.description)
          unfold applyRow
          rw [if_pos hv]
          unfold upsertRow
          rw [if_pos hs]
          cases hcat : cat r.sku <;> rfl
        · have hb : (isValidRow r && r.sku == s) = false := by
            have : (r.sku == s) = false := by
              simp only [beq_eq_false_iff_ne, ne_eq]
              intro hc
              exact hs hc.symm
            simp [this]
          rw [if_neg (by simp [hb])]
          show viewND (applyRow cat r s) = viewND (cat s)
          unfold applyRow
          rw [if_pos hv]
          unfold upsertRow
          rw [if_neg hs]
      · have hb : (isValidRow r && r.sku == s) = false := by
          simp [Bool.eq_false_iff.mpr hv]
        rw [if_neg (by simp [hb])]
        show viewND (applyRow cat r s) = viewND (cat s)
        unfold applyRow
        rw [if_neg hv]

theorem lastValidWithSku_isSome {rows : List Row} {r : Row}
    (hmem : r ∈ rows) (hv : isValidRow r = true) :
    ∃ x, lastValidWithSku rows r.sku = some x := by
  unfold lastValidWithSku
  have hex : ∃ x, x ∈ rows.reverse ∧ (isValidRow x && x.sku == r.sku) = true :=
    ⟨r, List.mem_reverse.mpr hmem, by simp [hv]⟩
  have hsome := List.find?_isSome.mpr hex
  obtain ⟨x, hx⟩ := Option.isSome_iff_exists.mp hsome
  exact ⟨x, hx⟩

/-! ## The persisted snapshot sequence is a chain -/

theorem processChunks_chain (id : String) (total : Nat) :
    ∀ (chunks : List (List Row)) (seen proc : Nat) (cat : Catalog),
      seen + chunks.flatten.length ≤ total →
      List.Chain' Rsnap
        ((processChunks id total chunks seen proc cat).snaps
          ++ [completedSnap id total (processChunks id total chunks seen proc cat).processed]) ∧
      (∀ h0 ∈ ((processChunks id total chunks seen proc cat).snaps
          ++ [completedSnap id total (processChunks id total chunks seen proc cat).processed]).head?,
        prog seen total ≤ h0.progress ∧ proc ≤ h0.processed_rows ∧
          (h0.status = .running ∨ h0.status = .completed)) := by
  intro chunks
  induction chunks with
  | nil =>
    intro seen proc cat hinv
    dsimp only [processChunks]
    constructor
    · exact List.chain'_singleton _
    · intro h0 hh0
      simp only [List.nil_append, List.head?_cons, Option.mem_def, Option.some.injEq] at hh0
      subst hh0
      refine ⟨?_, le_refl _, Or.inr rfl⟩
      show prog seen total ≤ 1
      exact prog_le_one (by simpa using hinv)
  | cons ch rest ih =>
    intro seen proc cat hinv
    have hflat : (ch :: rest).flatten.length = ch.length + rest.flatten.length := by
      rw [List.flatten_cons, List.length_append]
    cases rest with
    | nil =>
      dsimp only [processChunks]
      constructor
      · exact List.chain'_singleton _
      · intro h0 hh0
        simp only [List.nil_append, List.head?_cons, Option.mem_def, Option.some.injEq] at hh0
        subst hh0
        refine ⟨?_, Nat.le_add_right _ _, Or.inr rfl⟩
        show prog seen total ≤ 1
        exact prog_le_one (by simp at hflat; omega)
    | cons c2 rest' =>
      have hinv' : (seen + ch.length) + (c2 :: rest').flatten.length ≤ total := by
        omega
      obtain ⟨hchain, hhead⟩ :=
        ih (seen + ch.length) (proc + countValid ch) (importRows cat ch) hinv'
      dsimp only [processChunks] at hchain hhead ⊢
      simp only [List.cons_append, List.nil_append, List.append_assoc] at hchain hhead ⊢
      constructor
      · rw [List.chain'_cons']
        refine ⟨?_, hchain⟩
        intro y hy
        have hb := hhead y hy
        refine ⟨hb.1, hb.2.1, ?_⟩
        rcases hb.2.2 with hys | hys
        · exact Or.inl hys.symm
        · refine Or.inr ?_
          rw [hys]
          rfl
      · intro h0 hh0
        simp only [List.cons_append, List.head?_cons, Option.mem_def, Option.some.injEq] at hh0
        subst hh0
        refine ⟨?_, Nat.le_add_right _ _, Or.inl rfl⟩
        show prog seen total ≤ prog (seen + ch.length) total
        exact prog_mono total (Nat.le_add_right _ _)

/-- Every interior chunk-boundary snapshot is a `runningSnap` with
strictly fewer rows seen than the total. -/
theorem processChunks_snaps_mem (id : String) (total : Nat) :
    ∀ (chunks : List (List Row)) (seen proc : Nat) (cat : Catalog),
      seen + chunks.flatten.length ≤ total →
      (∀ c ∈ chunks, c ≠ []) →
      ∀ snap ∈ (processChunks id total chunks seen proc cat).snaps,
        ∃ s p, snap = runningSnap id total s p ∧ s < total := by
  intro chunks
  induction chunks with
  | nil =>
    intro seen proc cat _ _ snap hsnap
    simp [processChunks] at hsnap
  | cons ch rest ih =>
    intro seen proc cat hinv hne
    have hflat : (ch :: rest).flatten.length = ch.length + rest.flatten.length := by
      rw [List.flatten_cons, List.length_append]
    cases rest with
    | nil =>
      intro snap hsnap
      dsimp only [processChunks] at hsnap
      simp [processChunks] at hsnap
    | cons c2 rest' =>
      intro snap hsnap
      dsimp only [processChunks] at hsnap
      rcases List.mem_cons.mp hsnap with hsnap | hsnap
      · refine ⟨seen + ch.length, proc + countValid ch, hsnap, ?_⟩
        have hc2 : c2 ≠ [] := hne c2 (by simp)
        have hc2len : 0 < c2.length := List.length_pos.mpr hc2
        have : (c2 :: rest').flatten.length = c2.length + rest'.flatten.length := by
          rw [List.flatten_cons, List.length_append]
        omega
      · exact ih (seen + ch.length) (proc + countValid ch) (importRows cat ch)
          (by omega) (fun c hc => hne c (by simp [hc])) snap hsnap

/-- The full trace of an import run is a chain under `Rsnap`. -/
theorem runImport_trace_chain (id : String) (f : CsvFile) (cat : Catalog) :
    List.Chain' Rsnap (runImport id f cat).trace := by
  unfold runImport
  by_cases hh : hasRequiredHeader f = true
  · rw [if_pos hh]
    dsimp only
    have hinv : 0 + (chunksOf (chunkSize - 1) (parsedRows f)).flatten.length ≤
        (parsedRows f).length := by
      rw [chunksOf_flatten]
      omega
    obtain ⟨hchain, hhead⟩ :=
      processChunks_chain id (parsedRows f).length
        (chunksOf (chunkSize - 1) (parsedRows f)) 0 0 cat hinv
    rw [List.chain'_cons']
    constructor
    · intro y hy
      simp only [List.head?_cons, Option.mem_def, Option.some.injEq] at hy
      subst hy
      exact ⟨le_refl _, le_refl _, Or.inr rfl⟩
    · rw [List.chain'_cons']
      refine ⟨?_, hchain⟩
      intro y hy
      have hb := hhead y hy
      refine ⟨?_, hb.2.1, ?_⟩
      · have := hb.1
        rw [prog_zero] at this
        exact this
      · rcases hb.2.2 with hys | hys
        · exact Or.inl hys.symm
        · refine Or.inr ?_
          rw [hys]
          rfl
  · rw [if_neg hh]
    dsimp only
    rw [List.chain'_cons, List.chain'_cons]
    exact ⟨⟨le_refl _, le_refl _, Or.inr rfl⟩,
      ⟨le_refl _, le_refl _, Or.inr rfl⟩, List.chain'_singleton _⟩

/-- Every snapshot in the trace is one of the five snapshot kinds the
worker persists. -/
theorem runImport_trace_mem (id : String) (f : CsvFile) (cat : Catalog) :
    ∀ snap ∈ (runImport id f cat).trace,
      snap = pendingSnap id ∨ snap = runningStart id ∨
      (∃ s p, snap = runningSnap id (parsedRows f).length s p ∧
        s < (parsedRows f).length) ∨
      (∃ p, snap = completedSnap id (parsedRows f).length p) ∨
      snap = failedSnap id := by
  intro snap hs
  unfold runImport at hs
  by_cases hh : hasRequiredHeader f = true
  · rw [if_pos hh] at hs
    dsimp only at hs
    rcases List.mem_cons.mp hs with h | hs
    · exact Or.inl h
    rcases List.mem_cons.mp hs with h | hs
    · exact Or.inr (Or.inl h)
    rcases List.mem_append.mp hs with h | h
    · refine Or.inr (Or.inr (Or.inl ?_))
      have hinv : 0 + (chunksOf (chunkSize - 1) (parsedRows f)).flatten.length ≤
          (parsedRows f).length := by
        rw [chunksOf_flatten]
        omega
      exact processChunks_snaps_mem id (parsedRows f).length
        (chunksOf (chunkSize - 1) (parsedRows f)) 0 0 cat hinv
        (chunksOf_ne_nil _ _) snap h
    · refine Or.inr (Or.inr (Or.inr (Or.inl ?_)))
      rcases List.mem_singleton.mp h with rfl
      exact ⟨_, rfl⟩
  · rw [if_neg hh] at hs
    dsimp only at hs
    rcases List.mem_cons.mp hs with h | hs
    · exact Or.inl h
    rcases List.mem_cons.mp hs with h | hs
    · exact Or.inr (Or.inl h)
    rcases List.mem_singleton.mp hs with rfl
    exact Or.inr (Or.inr (Or.inr (Or.inr rfl)))

/-! ## C1: completion counts and last-occurrence-wins catalog state -/

/-- C1: for every CSV whose header has the required `sku` and `name`
columns, the import job reaches `completed`; at completion
`processed_rows` equals the number of syntactically valid rows (non-empty
`sku` and non-empty `name`); and for every valid row the catalog holds a
record for its `sku` carrying the name and description of the
file-order-last valid occurrence of that `sku`. -/
theorem C1_import_correctness (id : String) (f : CsvFile) (cat : Catalog)
    (h : hasRequiredHeader f = true) :
    (runImport id f cat).finalJob.status = .completed ∧
    (runImport id f cat).trace.getLast? = some (runImport id f cat).finalJob ∧
    (runImport id f cat).finalJob.processed_rows = countValid (parsedRows f) ∧
    ∀ r ∈ parsedRows f, isValidRow r = true →
      ∃ last, lastValidWithSku (parsedRows f) r.sku = some last ∧
        ∃ p, (runImport id f cat).catalog r.sku = some p ∧
          p.name = last.name ∧ p.description = last.description := by
  unfold runImport
  rw [if_pos h]
  dsimp only
  refine ⟨rfl, ?_, ?_, ?_⟩
  · rw [show pendingSnap id :: runningStart id ::
        ((importRun id f cat).snaps
          ++ [completedSnap id (parsedRows f).length (importRun id f cat).processed]) =
        (pendingSnap id :: runningStart id :: (importRun id f cat).snaps)
          ++ [completedSnap id (parsedRows f).length (importRun id f cat).processed] from by
      simp]
    exact List.getLast?_concat _
  · show (importRun id f cat).processed = countValid (parsedRows f)
    unfold importRun
    rw [processChunks_processed, chunksOf_flatten]
    omega
  · intro r hr hv
    obtain ⟨last, hlast⟩ := lastValidWithSku_isSome hr hv
    refine ⟨last, hlast, ?_⟩
    have hlook := importRows_lookup (parsedRows f) cat r.sku
    rw [hlast] at hlook
    show ∃ p, (importRun id f cat).catalog r.sku = some p ∧
      p.name = last.name ∧ p.description = last.description
    unfold importRun
    rw [processChunks_catalog, chunksOf_flatten]
    unfold viewND at hlook
    rcases Option.map_eq_some'.mp hlook with ⟨p, hp, hpe⟩
    have hne : p.name = last.name ∧ p.description = last.description := by
      have := Prod.mk.injEq p.name p.description last.name last.description ▸ hpe
      exact Prod.mk.inj hpe
    exact ⟨p, hp, hne.1, hne.2⟩

/-- Witness for C1 on the spec's 3-row scenario: the job completes with
`processed_rows = 2` and the catalog holds exactly the last valid values
`Widget v2`/`desc2` for `A1`. -/
theorem C1_witness :
    hasRequiredHeader demoFile = true ∧
    (runImport "job-w1" demoFile demoCatalog).finalJob.status = .completed ∧
    (runImport "job-w1" demoFile demoCatalog).finalJob.processed_rows = 2 ∧
    ∃ p, (runImport "job-w1" demoFile demoCatalog).catalog "A1" = some p ∧
      p.name = "Widget v2" ∧ p.description = "desc2" := by
  have h := C1_import_correctness "job-w1" demoFile demoCatalog (by decide)
  refine ⟨by decide, h.1, ?_, ?_⟩
  · rw [h.2.2.1]
    decide
  · have hr : (⟨"A1", "Widget v2", "desc2"⟩ : Row) ∈ parsedRows demoFile := by decide
    obtain ⟨last, hlast, p, hp, hn, hd⟩ := h.2.2.2 _ hr (by decide)
    have hlv : lastValidWithSku (parsedRows demoFile) "A1" =
        some ⟨"A1", "Widget v2", "desc2"⟩ := by decide
    rw [show (⟨"A1", "Widget v2", "desc2"⟩ : Row).sku = "A1" from rfl, hlv] at hlast
    have hl2 : (⟨"A1", "Widget v2", "desc2"⟩ : Row) = last := Option.some.inj hlast
    refine ⟨p, hp, ?_, ?_⟩
    · rw [hn, ← hl2]
    · rw [hd, ← hl2]

/-! ## C2: the job status machine -/

/-- C2: every persisted status sequence of a job is a path of the machine
`pending → running → {completed, failed}` (pollers may observe a state
repeatedly); the status only takes the four values; a step out of
`completed` or `failed` can only return the same status; and the
frontend's `refetchInterval` stops polling exactly at the two terminal
statuses. -/
theorem C2_status_machine (id : String) (f : CsvFile) (cat : Catalog) :
    List.Chain' stepOk ((runImport id f cat).trace.map Snapshot.status) ∧
    (∀ snap ∈ (runImport id f cat).trace,
      snap.status = .pending ∨ snap.status = .running ∨
      snap.status = .completed ∨ snap.status = .failed) ∧
    (∀ b : Status, (stepOk .completed b ↔ b = .completed) ∧
      (stepOk .failed b ↔ b = .failed)) ∧
    (∀ s : Status, refetchIntervalMs (some s) = none ↔
      (s = .completed ∨ s = .failed)) := by
  refine ⟨?_, ?_, ?_, ?_⟩
  · rw [List.chain'_map]
    exact (runImport_trace_chain id f cat).imp (fun _ _ hab => hab.2.2)
  · intro snap _
    cases snap.status
    · exact Or.inl rfl
    · exact Or.inr (Or.inl rfl)
    · exact Or.inr (Or.inr (Or.inl rfl))
    · exact Or.inr (Or.inr (Or.inr rfl))
  · intro b
    unfold stepOk statusTrans
    cases b <;> simp
  · intro s
    cases s <;> simp [refetchIntervalMs]

/-- Witness for C2 on the scenario file: the snapshot sequence is a path
of the machine, the created job's snapshot is in the trace with a status
among the four values, and polling stops at `completed`. -/
theorem C2_witness :
    pendingSnap "job-w2" ∈ (runImport "job-w2" demoFile demoCatalog).trace ∧
    ((pendingSnap "job-w2").status = .pending ∨
      (pendingSnap "job-w2").status = .running ∨
      (pendingSnap "job-w2").status = .completed ∨
      (pendingSnap "job-w2").status = .failed) ∧
    List.Chain' stepOk
      ((runImport "job-w2" demoFile demoCatalog).trace.map Snapshot.status) ∧
    (refetchIntervalMs (some .completed) = none ↔
      (Status.completed = .completed ∨ Status.completed = .failed)) := by
  have h := C2_status_machine "job-w2" demoFile demoCatalog
  have hmem : pendingSnap "job-w2" ∈ (runImport "job-w2" demoFile demoCatalog).trace := by
    decide
  exact ⟨hmem, h.2.1 _ hmem, h.1, h.2.2.2 .completed⟩

/-! ## C3: progress and processed_rows are monotone; 1.0 only at completed -/

/-- C3: across the snapshots of one job, `progress` and `processed_rows`
are monotonically non-decreasing (pairwise over the whole persisted
sequence), and a snapshot has `progress` exactly 1 only when its status
is `completed`. -/
theorem C3_progress_monotone (id : String) (f : CsvFile) (cat : Catalog) :
    List.Pairwise progressMono (runImport id f cat).trace ∧
    ∀ snap ∈ (runImport id f cat).trace,
      snap.progress = 1 → snap.status = .completed := by
  constructor
  · rw [← List.chain'_iff_pairwise]
    exact (runImport_trace_chain id f cat).imp (fun _ _ hab => ⟨hab.1, hab.2.1⟩)
  · intro snap hmem hp
    rcases runImport_trace_mem id f cat snap hmem with h | h | ⟨s, p, h, hlt⟩ | ⟨p, h⟩ | h
    · rw [h] at hp
      exact absurd hp (by norm_num [pendingSnap])
    · rw [h] at hp
      exact absurd hp (by norm_num [runningStart])
    · rw [h] at hp
      have hlt1 : prog s (parsedRows f).length < 1 := prog_lt_one hlt
      simp only [runningSnap] at hp
      exact absurd hp (ne_of_lt hlt1)
    · rw [h]
      rfl
    · rw [h] at hp
      exact absurd hp (by norm_num [failedSnap])

/-- Witness for C3 on the scenario file: the trace is pairwise monotone,
and its final snapshot — the one with `progress = 1` — is `completed`. -/
theorem C3_witness :
    List.Pairwise progressMono (runImport "job-w3" demoFile demoCatalog).trace ∧
    completedSnap "job-w3" 3 2 ∈ (runImport "job-w3" demoFile demoCatalog).trace ∧
    (completedSnap "job-w3" 3 2).status = .completed := by
  have h := C3_progress_monotone "job-w3" demoFile demoCatalog
  have hmem : completedSnap "job-w3" 3 2 ∈ (runImport "job-w3" demoFile demoCatalog).trace := by
    decide
  exact ⟨h.1, hmem, h.2 _ hmem rfl⟩

/-! ## C4: the poller-visible snapshot shape -/

/-- C4: every snapshot surfaced to pollers is a `Snapshot` — a record
with exactly the fields `id`, `status`, `progress`, `message`,
`total_rows`, `processed_rows`, `error_message`, `started_at`,
`finished_at` — and its `progress` always lies between 0 and 1. -/
theorem C4_snapshot_shape (id : String) (f : CsvFile) (cat : Catalog) :
    ∀ snap ∈ (runImport id f cat).trace,
      0 ≤ snap.progress ∧ snap.progress ≤ 1 := by
  intro snap hmem
  rcases runImport_trace_mem id f cat snap hmem with h | h | ⟨s, p, h, hlt⟩ | ⟨p, h⟩ | h
  · rw [h]
    exact ⟨le_refl 0, by norm_num [pendingSnap]⟩
  · rw [h]
    exact ⟨le_refl 0, by norm_num [runningStart]⟩
  · rw [h]
    exact ⟨prog_nonneg _ _, le_of_lt (prog_lt_one hlt)⟩
  · rw [h]
    exact ⟨by norm_num [completedSnap], le_refl 1⟩
  · rw [h]
    exact ⟨le_refl 0, by norm_num [failedSnap]⟩

/-- Witness for C4 on the scenario file: the completed snapshot observed
by the poller has its progress inside `[0, 1]`. -/
theorem C4_witness :
    completedSnap "job-w4" 3 2 ∈ (runImport "job-w4" demoFile demoCatalog).trace ∧
    0 ≤ (completedSnap "job-w4" 3 2).progress ∧
    (completedSnap "job-w4" 3 2).progress ≤ 1 := by
  have hmem : completedSnap "job-w4" 3 2 ∈ (runImport "job-w4" demoFile demoCatalog).trace := by
    decide
  exact ⟨hmem, C4_snapshot_shape "job-w4" demoFile demoCatalog _ hmem⟩

end ProductImporter
